import Mathlib

/-!
Verification of the recently-added playlist synchronizer.

This file gives a shallow embedding of `src/app/recently_added_playlist_syncer.py`
and the configuration-resolution part of `src/app/lambda_function.py`, and proves
the spec's claims about them.

Modelling conventions:
* A track id is a `String`; a playlist or library is a `List String` in order.
* The remote playlist state is threaded explicitly.  Every remote mutation the
  code issues is recorded in a trace of `MutationCall`s, and every "re-fetch"
  of the playlist returns the remote state obtained by applying the issued
  calls (the remote service is sequential and faithful; external concurrent
  mutation is outside this model).
* Python list operations are translated explicitly: `list.index` is
  `listIndex` (first index of an equal element, `none` for the ValueError
  case), `list.pop(j)` is `pyPop`, `list.insert(i, x)` is `pyInsert`
  (which, like Python, appends when `i` exceeds the length).
-/

namespace SpotifySync

/-- GET_LIMIT constant from the source: page size and mutation batch size. -/
def GET_LIMIT : Nat := 50

/-- One remote mutation request issued by the syncer:
`removeAllOcc batch` is `playlist_remove_all_occurrences_of_items`,
`addAtPos batch` is `playlist_add_items(..., position=0)`,
`moveRange j i` is `playlist_reorder_items(range_start=j, insert_before=i)`. -/
inductive MutationCall where
  | removeAllOcc (batch : List String)
  | addAtPos (batch : List String)
  | moveRange (rangeStart insertBefore : Nat)
deriving DecidableEq, Repr

/-- Python `list.insert(i, x)` for a nonnegative index: inserts before
position `i`, appending at the end when `i` exceeds the length. -/
def pyInsert (l : List String) (i : Nat) (x : String) : List String :=
  l.take i ++ x :: l.drop i

/-- Python `list.pop(j)`'s effect on the list for a valid index `j`:
removes the element at position `j`. -/
def pyPop (l : List String) (j : Nat) : List String :=
  l.take j ++ l.drop (j + 1)

/-- Python `list.index(t)`: index of the first element equal to `t`,
`none` when `t` is absent (the `ValueError` case). -/
def listIndex (l : List String) (t : String) : Option Nat :=
  match l with
  | [] => none
  | a :: rest => if a = t then some 0 else (listIndex rest t).map (· + 1)

/-- `tracks[i : i + GET_LIMIT]` batching from the source's
`for i in range(0, len(tracks), GET_LIMIT)` loops: consecutive chunks of at
most `GET_LIMIT` elements. -/
def chunks50 (l : List String) : List (List String) :=
  if l = [] then []
  else l.take GET_LIMIT :: chunks50 (l.drop GET_LIMIT)
termination_by l.length
decreasing_by
  rename_i h
  have hl : 0 < l.length := List.length_pos.mpr h
  simp only [GET_LIMIT, List.length_drop]
  omega

/-- The duplicate scan of `sync` (lines 216-223): walk the playlist keeping a
set of seen tracks; every occurrence already seen is appended to the
duplicate list. -/
def dupScan (seen dups : List String) : List String → List String
  | [] => dups
  | t :: rest =>
    if t ∈ seen then dupScan seen (dups ++ [t]) rest
    else dupScan (seen ++ [t]) dups rest

/-- Duplicate tracks collected by `sync`'s scan of the playlist. -/
def duplicateTracks (l : List String) : List String :=
  dupScan [] [] l

/-- The calls issued by `delete_tracks`: one `removeAllOcc` per consecutive
batch of at most `GET_LIMIT` ids, in forward batch order. -/
def deleteCalls (tracksToRemove : List String) : List MutationCall :=
  (chunks50 tracksToRemove).map MutationCall.removeAllOcc

/-- The calls issued by `add_tracks`: one `addAtPos` (insert at playlist
position 0) per consecutive batch of at most `GET_LIMIT` ids, submitted in
reverse batch order (`reversed(range(...))` in the source). -/
def addCalls (tracksToAdd : List String) : List MutationCall :=
  ((chunks50 tracksToAdd).reverse).map MutationCall.addAtPos

/-- Remote semantics of `playlist_reorder_items(range_start, insert_before)`
for a range of length 1: the element at `rangeStart` is moved so that it ends
up before the element that was at `insertBefore`; with `insertBefore`
counted in the original list, a forward move lands at `insertBefore - 1`.
An out-of-range `rangeStart` cannot be issued by the syncer and is modelled
as a no-op. -/
def spotifyMove (s : List String) (rangeStart insertBefore : Nat) : List String :=
  match s.get? rangeStart with
  | none => s
  | some t =>
    if rangeStart < insertBefore then
      pyInsert (pyPop s rangeStart) (insertBefore - 1) t
    else
      pyInsert (pyPop s rangeStart) insertBefore t

/-- Effect of one mutation call on the remote playlist state. -/
def applyCall (s : List String) : MutationCall → List String
  | .removeAllOcc batch => s.filter (fun t => decide (t ∉ batch))
  | .addAtPos batch => batch ++ s
  | .moveRange j i => spotifyMove s j i

/-- Remote playlist state after a sequence of mutation calls. -/
def applyCalls (s : List String) (calls : List MutationCall) : List String :=
  calls.foldl applyCall s

/-- The loop of `reorder_playlist` (lines 171-191): for each target position
`i` and target track `t`, look up `t`'s current index `j` in the locally
mirrored playlist; when `i ≠ j`, issue `moveRange j i` and update the mirror
by popping index `j` and inserting the popped element at `i`.  Returns the
final mirror and the issued `(range_start, insert_before)` pairs, or `none`
when a lookup fails (Python `list.index` raising `ValueError`). -/
def reorderLoop : List String → Nat → List String → List (Nat × Nat) →
    Option (List String × List (Nat × Nat))
  | [], _, cur, moves => some (cur, moves)
  | t :: rest, i, cur, moves =>
    match listIndex cur t with
    | none => none
    | some j =>
      if i = j then
        reorderLoop rest (i + 1) cur moves
      else
        let x := cur.getD j t
        reorderLoop rest (i + 1) (pyInsert (pyPop cur j) i x) (moves ++ [(j, i)])

/-- `reorder_playlist(recently_added_tracks, playlist_tracks)`. -/
def reorder_playlist (recentlyAddedTracks playlistTracks : List String) :
    Option (List String × List (Nat × Nat)) :=
  reorderLoop recentlyAddedTracks 0 playlistTracks []

/-- Phase 1 of `sync` (lines 216-232): collect the duplicate tracks, and when
there are any, delete them in batches and re-fetch the playlist from the
remote state.  Returns the issued calls and the playlist sequence `sync`
holds afterwards. -/
def dedupPhase (cur : List String) : List MutationCall × List String :=
  let dups := duplicateTracks cur
  if dups = [] then ([], cur)
  else (deleteCalls dups, applyCalls cur (deleteCalls dups))

/-- Phase 2 of `sync` (lines 234-246): delete the playlist tracks absent from
the target, re-fetching when any were deleted. -/
def extraneousPhase (target cur : List String) : List MutationCall × List String :=
  let tracksToDelete := cur.filter (fun t => decide (t ∉ target))
  if tracksToDelete = [] then ([], cur)
  else (deleteCalls tracksToDelete, applyCalls cur (deleteCalls tracksToDelete))

/-- Phase 3 of `sync` (lines 248-259): add the target tracks absent from the
playlist, re-fetching when any were added. -/
def additionPhase (target cur : List String) : List MutationCall × List String :=
  let tracksToAdd := target.filter (fun t => decide (t ∉ cur))
  if tracksToAdd = [] then ([], cur)
  else (addCalls tracksToAdd, applyCalls cur (addCalls tracksToAdd))

/-- Phase 4 of `sync` (lines 261-265): when the playlist still differs from
the target, run `reorder_playlist` and re-fetch; `none` models the unguarded
`list.index` raising `ValueError` inside `reorder_playlist`. -/
def reorderPhase (target cur : List String) : Option (List MutationCall × List String) :=
  if target = cur then some ([], cur)
  else
    match reorder_playlist target cur with
    | none => none
    | some (_, moves) =>
      let calls := moves.map (fun m => MutationCall.moveRange m.1 m.2)
      some (calls, applyCalls cur calls)

/-- Phases 1-4 of `sync` in order, threading the remote state: returns all
issued calls and the playlist sequence re-fetched after phase 4, or `none`
on the `ValueError` path. -/
def syncPhases (target cur : List String) : Option (List MutationCall × List String) :=
  let p1 := dedupPhase cur
  let p2 := extraneousPhase target p1.2
  let p3 := additionPhase target p2.2
  match reorderPhase target p3.2 with
  | none => none
  | some p4 => some (p1.1 ++ p2.1 ++ p3.1 ++ p4.1, p4.2)

/-- Errors `sync` can raise: `valueError` from the unguarded index lookup in
`reorder_playlist`, `playlistSyncError` from the final verification. -/
inductive SyncError where
  | valueError
  | playlistSyncError
deriving DecidableEq, Repr

/-- Outcome of a successful `sync`: the full trace of issued mutation calls
and the final re-fetched playlist sequence. -/
structure SyncOutcome where
  calls : List MutationCall
  final : List String
deriving DecidableEq, Repr

/-- `RecentlyAddedPlaylistSyncer.sync` (lines 197-274): short-circuit when the
playlist already equals the target, otherwise run phases 1-4 and raise
`PlaylistSyncError` when the final re-fetched sequence still differs. -/
def sync (recentlyAddedTracks playlistTracks : List String) :
    Except SyncError SyncOutcome :=
  if recentlyAddedTracks = playlistTracks then .ok ⟨[], playlistTracks⟩
  else
    match syncPhases recentlyAddedTracks playlistTracks with
    | none => .error .valueError
    | some (calls, cur) =>
      if recentlyAddedTracks = cur then .ok ⟨calls, cur⟩
      else .error .playlistSyncError

/-- The pagination loop of `get_recently_added_tracks` (lines 57-80): while
fewer than `windowSize` tracks are counted, read the page of `GET_LIMIT`
library items at `offset`, append the returned ids, stop on a short page,
otherwise advance the offset and the fetched count by the page length. -/
def savedFetchLoop (library : List String) (offset fetched windowSize : Nat)
    (acc : List String) : List String :=
  if _h1 : fetched < windowSize then
    if _h2 : ((library.drop offset).take GET_LIMIT).length < GET_LIMIT then
      acc ++ (library.drop offset).take GET_LIMIT
    else
      savedFetchLoop library (offset + GET_LIMIT)
        (fetched + ((library.drop offset).take GET_LIMIT).length) windowSize
        (acc ++ (library.drop offset).take GET_LIMIT)
  else acc
termination_by windowSize - fetched
decreasing_by
  simp only [GET_LIMIT, not_lt, List.length_take, List.length_drop] at _h2 ⊢
  omega

/-- `get_recently_added_tracks` (lines 49-87) over a library sequence:
pages start at offset `playlistIndex * playlistLength`. -/
def get_recently_added_tracks (library : List String)
    (playlistIndex playlistLength : Nat) : List String :=
  savedFetchLoop library (playlistIndex * playlistLength) 0 playlistLength []

/-- The pagination loop of `get_playlist_tracks` (lines 96-122): read pages of
`GET_LIMIT` playlist items, appending ids, until a short page. -/
def playlistFetchLoop (playlist : List String) (offset : Nat)
    (acc : List String) : List String :=
  if _h : ((playlist.drop offset).take GET_LIMIT).length < GET_LIMIT then
    acc ++ (playlist.drop offset).take GET_LIMIT
  else
    playlistFetchLoop playlist (offset + GET_LIMIT)
      (acc ++ (playlist.drop offset).take GET_LIMIT)
termination_by playlist.length - offset
decreasing_by
  simp only [GET_LIMIT, not_lt, List.length_take, List.length_drop] at _h ⊢
  omega

/-- `get_playlist_tracks` (lines 89-128) over the remote playlist state. -/
def get_playlist_tracks (playlist : List String) : List String :=
  playlistFetchLoop playlist 0 []

/-- Errors of `get_playlist_ids` in `lambda_function.py`:
`playlistsDataError` for the empty-data check (line 174),
`nameMismatch` for the name-sequence check (line 178). -/
inductive PlaylistIdsError where
  | playlistsDataError
  | nameMismatch
deriving DecidableEq, Repr

/-- `get_playlist_ids` (lambda_function.py lines 107-185): `stored` is the
persisted (name, id) list when the store holds one, `none` for the not-found
condition, in which case one playlist per configured name is created with
`createId` and the assembled list persisted.  Then: raise if the list is
empty, raise if the configured names differ from the stored first
components, otherwise return the pairs in order. -/
def get_playlist_ids (playlistNames : List String)
    (stored : Option (List (String × String))) (createId : String → String) :
    Except PlaylistIdsError (List (String × String)) :=
  let playlists :=
    match stored with
    | some ps => ps
    | none => playlistNames.map (fun n => (n, createId n))
  if playlists = [] then .error .playlistsDataError
  else if playlistNames ≠ playlists.map Prod.fst then .error .nameMismatch
  else .ok playlists

end SpotifySync

namespace SpotifySync

/-! ### Helper lemmas about the Python-primitive translations -/

lemma listIndex_eq_none_of_not_mem {l : List String} {t : String} (h : t ∉ l) :
    listIndex l t = none := by
  induction l with
  | nil => rfl
  | cons a rest ih =>
    simp only [List.mem_cons, not_or] at h
    have ha : a ≠ t := fun hh => h.1 hh.symm
    simp [listIndex, ha, ih h.2]

lemma listIndex_mem {l : List String} {t : String} (h : t ∈ l) :
    ∃ j, listIndex l t = some j ∧ l.get? j = some t := by
  induction l with
  | nil => simp at h
  | cons a rest ih =>
    by_cases ha : a = t
    · exact ⟨0, by simp [listIndex, ha], by simp [ha]⟩
    · have ht : t ∈ rest := by
        rcases List.mem_cons.mp h with h1 | h1
        · exact absurd h1.symm ha
        · exact h1
      obtain ⟨j, hj, hg⟩ := ih ht
      exact ⟨j + 1, by simp [listIndex, ha, hj], by simpa using hg⟩

lemma chunks50_flatten (l : List String) : (chunks50 l).flatten = l := by
  by_cases h : l = []
  · rw [chunks50]; simp [h]
  · rw [chunks50, if_neg h]
    rw [List.flatten_cons, chunks50_flatten (l.drop GET_LIMIT), List.take_append_drop]
termination_by l.length
decreasing_by
  have hl : 0 < l.length := List.length_pos.mpr h
  simp only [GET_LIMIT, List.length_drop]
  omega

lemma chunks50_sizes {l b : List String} (hb : b ∈ chunks50 l) : b.length ≤ GET_LIMIT := by
  by_cases h : l = []
  · rw [chunks50, if_pos h] at hb
    simp at hb
  · rw [chunks50, if_neg h] at hb
    rcases List.mem_cons.mp hb with h1 | h1
    · subst h1
      simp [List.length_take]
    · exact chunks50_sizes h1
termination_by l.length
decreasing_by
  have hl : 0 < l.length := List.length_pos.mpr h
  simp only [GET_LIMIT, List.length_drop]
  omega

lemma applyCalls_nil (s : List String) : applyCalls s [] = s := rfl

lemma applyCalls_append (s : List String) (c1 c2 : List MutationCall) :
    applyCalls s (c1 ++ c2) = applyCalls (applyCalls s c1) c2 := by
  simp [applyCalls]

lemma applyCalls_removeBatches (bs : List (List String)) (s : List String) :
    applyCalls s (bs.map MutationCall.removeAllOcc) =
      s.filter (fun t => decide (t ∉ bs.flatten)) := by
  induction bs generalizing s with
  | nil =>
    simp [applyCalls]
  | cons b bs ih =>
    have hstep : applyCalls s ((b :: bs).map MutationCall.removeAllOcc) =
        applyCalls (s.filter (fun t => decide (t ∉ b))) (bs.map MutationCall.removeAllOcc) := rfl
    rw [hstep, ih, List.filter_filter]
    apply List.filter_congr
    intro a _
    simp [List.mem_append, not_or, Bool.and_comm]

lemma applyCalls_deleteCalls (s ts : List String) :
    applyCalls s (deleteCalls ts) = s.filter (fun t => decide (t ∉ ts)) := by
  rw [deleteCalls, applyCalls_removeBatches, chunks50_flatten]

lemma applyCalls_addBatches (bs : List (List String)) (s : List String) :
    applyCalls s ((bs.reverse).map MutationCall.addAtPos) = bs.flatten ++ s := by
  induction bs generalizing s with
  | nil => simp [applyCalls]
  | cons b bs ih =>
    rw [List.reverse_cons, List.map_append, applyCalls_append, ih]
    simp [applyCalls, applyCall]

lemma applyCalls_addCalls (s ts : List String) :
    applyCalls s (addCalls ts) = ts ++ s := by
  rw [addCalls, applyCalls_addBatches, chunks50_flatten]

lemma dupScan_count (rest : List String) : ∀ (seen dups : List String) (t : String),
    (dupScan seen dups rest).count t =
      dups.count t + (if t ∈ seen then rest.count t else rest.count t - 1) := by
  induction rest with
  | nil =>
    intro seen dups t
    by_cases hts : t ∈ seen <;> simp [dupScan, hts]
  | cons a rest ih =>
    intro seen dups t
    by_cases ha : a ∈ seen
    · rw [dupScan, if_pos ha, ih]
      by_cases hta : t = a
      · subst hta
        simp [List.count_cons, ha]
        omega
      · have hta' : ¬ a = t := fun h => hta h.symm
        by_cases hts : t ∈ seen <;>
          simp [List.count_cons, List.count_append, hta, hta', hts]
    · rw [dupScan, if_neg ha, ih]
      by_cases hta : t = a
      · subst hta
        simp [List.count_cons, ha]
      · have hta' : ¬ a = t := fun h => hta h.symm
        by_cases hts : t ∈ seen <;>
          simp [List.count_cons, hta, hta', hts]

lemma duplicateTracks_count (l : List String) (t : String) :
    (duplicateTracks l).count t = l.count t - 1 := by
  have h := dupScan_count l [] [] t
  simpa [duplicateTracks] using h

lemma mem_duplicateTracks (l : List String) (t : String) :
    t ∈ duplicateTracks l ↔ 2 ≤ l.count t := by
  rw [← List.count_pos_iff, duplicateTracks_count]
  omega

/-! ### Pagination lemmas -/

lemma savedFetchLoop_full (library : List String) :
    ∀ (k offset fetched : Nat) (acc : List String),
      offset + GET_LIMIT * k ≤ library.length →
      savedFetchLoop library offset fetched (fetched + GET_LIMIT * k) acc =
        acc ++ (library.drop offset).take (GET_LIMIT * k) := by
  intro k
  induction k with
  | zero =>
    intro offset fetched acc _h
    rw [savedFetchLoop]
    simp
  | succ k ih =>
    intro offset fetched acc h
    have hGL : GET_LIMIT = 50 := rfl
    have hlen : ((library.drop offset).take GET_LIMIT).length = GET_LIMIT := by
      simp only [List.length_take, List.length_drop, hGL] at h ⊢
      omega
    have hlt : fetched < fetched + GET_LIMIT * (k + 1) := by
      simp only [hGL]; omega
    rw [savedFetchLoop, dif_pos hlt, dif_neg (by rw [hlen]; exact lt_irrefl _)]
    rw [hlen]
    have harith : fetched + GET_LIMIT * (k + 1) = (fetched + GET_LIMIT) + GET_LIMIT * k := by
      simp only [hGL]; omega
    rw [harith]
    rw [ih (offset + GET_LIMIT) (fetched + GET_LIMIT) _
      (by simp only [hGL] at h ⊢; omega)]
    have hsplit : (library.drop offset).take (GET_LIMIT * (k + 1)) =
        (library.drop offset).take GET_LIMIT ++ (library.drop (offset + GET_LIMIT)).take (GET_LIMIT * k) := by
      have hmul : GET_LIMIT * (k + 1) = GET_LIMIT + GET_LIMIT * k := by
        simp only [hGL]; omega
      rw [hmul, List.take_add, List.drop_drop]
    rw [hsplit, List.append_assoc]

lemma savedFetchLoop_empty_page (library : List String) (offset windowSize : Nat)
    (h : library.length ≤ offset) :
    savedFetchLoop library offset 0 windowSize [] = [] := by
  rw [savedFetchLoop]
  by_cases h0 : 0 < windowSize
  · rw [dif_pos h0]
    have hd : library.drop offset = [] := List.drop_of_length_le h
    rw [dif_pos (by rw [hd]; simp [GET_LIMIT])]
    rw [hd]
    simp
  · rw [dif_neg h0]

lemma playlistFetchLoop_eq (playlist : List String) (offset : Nat) (acc : List String) :
    playlistFetchLoop playlist offset acc = acc ++ playlist.drop offset := by
  rw [playlistFetchLoop]
  by_cases h : ((playlist.drop offset).take GET_LIMIT).length < GET_LIMIT
  · rw [dif_pos h]
    have hlt : (playlist.drop offset).length < GET_LIMIT := by
      simp only [List.length_take] at h
      omega
    rw [List.take_of_length_le (le_of_lt hlt)]
  · rw [dif_neg h]
    rw [playlistFetchLoop_eq playlist (offset + GET_LIMIT) _]
    rw [List.append_assoc]
    congr 1
    rw [← List.drop_drop, List.take_append_drop]
termination_by playlist.length - offset
decreasing_by
  simp only [GET_LIMIT, not_lt, List.length_take, List.length_drop] at h ⊢
  omega

lemma get_playlist_tracks_eq (playlist : List String) :
    get_playlist_tracks playlist = playlist := by
  rw [get_playlist_tracks, playlistFetchLoop_eq]
  simp

/-! ### Lemmas about the local-mirror move operations -/

lemma pyPop_take {l : List String} {j i : Nat} (hij : i ≤ j) (hj : j ≤ l.length) :
    (pyPop l j).take i = l.take i := by
  rw [pyPop, List.take_append_eq_append_take]
  have h1 : (l.take j).length = j := by
    simp only [List.length_take]
    omega
  rw [h1, Nat.sub_eq_zero_of_le hij, List.take_zero, List.append_nil, List.take_take,
    Nat.min_eq_left hij]

lemma pyPop_length {l : List String} {j : Nat} (hj : j < l.length) :
    (pyPop l j).length = l.length - 1 := by
  simp only [pyPop, List.length_append, List.length_take, List.length_drop]
  omega

lemma pyInsert_take {l : List String} {i : Nat} {x : String} (h : i ≤ l.length) :
    (pyInsert l i x).take (i + 1) = l.take i ++ [x] := by
  rw [pyInsert, List.take_append_eq_append_take]
  have h1 : (l.take i).length = i := by
    simp only [List.length_take]
    omega
  rw [List.take_take, Nat.min_eq_right (Nat.le_succ i), h1,
    Nat.succ_sub (le_refl i), Nat.sub_self, List.take_succ_cons, List.take_zero]

lemma pyInsert_perm (l : List String) (i : Nat) (x : String) :
    (pyInsert l i x).Perm (x :: l) := by
  rw [pyInsert]
  have h := @List.perm_middle _ x (l.take i) (l.drop i)
  simpa [List.take_append_drop] using h

lemma perm_cons_pyPop {l : List String} {j : Nat} {t : String}
    (hget : l.get? j = some t) : l.Perm (t :: pyPop l j) := by
  have hj : j < l.length := by
    rw [List.get?_eq_getElem?] at hget
    exact (List.getElem?_eq_some_iff.mp hget).1
  have h1 : l.take (j + 1) = l.take j ++ [t] := by
    rw [List.take_succ]
    rw [List.get?_eq_getElem?] at hget
    rw [hget]
    rfl
  have h2 : l = l.take j ++ t :: l.drop (j + 1) := by
    conv_lhs => rw [← List.take_append_drop (j + 1) l]
    rw [h1, List.append_assoc, List.singleton_append]
  rw [pyPop]
  conv_lhs => rw [h2]
  exact List.perm_middle

lemma index_ge_of_not_mem_take {l : List String} {j i : Nat} {t : String}
    (hget : l.get? j = some t) (hni : t ∉ l.take i) : i ≤ j := by
  by_contra hc
  push_neg at hc
  have : (l.take i)[j]? = some t := by
    rw [List.getElem?_take_of_lt hc, ← List.get?_eq_getElem?]
    exact hget
  exact hni (List.getElem?_mem this)

/-! ### The reorder-pass invariant -/

lemma reorderLoop_spec : ∀ (tracks : List String) (i : Nat) (cur : List String)
    (moves : List (Nat × Nat)),
    tracks.Nodup →
    (∀ t ∈ tracks, t ∈ cur) →
    (∀ t ∈ tracks, t ∉ cur.take i) →
    ∃ final newMoves,
      reorderLoop tracks i cur moves = some (final, moves ++ newMoves) ∧
      newMoves.length ≤ tracks.length ∧
      final.take (i + tracks.length) = cur.take i ++ tracks ∧
      (∀ p ∈ newMoves, p.2 < p.1) := by
  intro tracks
  induction tracks with
  | nil =>
    intro i cur moves _ _ _
    exact ⟨cur, [], by simp [reorderLoop], by simp, by simp, by simp⟩
  | cons t rest ih =>
    intro i cur moves hnd hmem hpre
    obtain ⟨hts, hndr⟩ := List.nodup_cons.mp hnd
    obtain ⟨j, hj, hget⟩ := listIndex_mem (hmem t (List.mem_cons_self t rest))
    have hjlen : j < cur.length := by
      rw [List.get?_eq_getElem?] at hget
      exact (List.getElem?_eq_some_iff.mp hget).1
    have hij : i ≤ j := index_ge_of_not_mem_take hget (hpre t (List.mem_cons_self t rest))
    by_cases hieq : i = j
    · -- track already at its target position: the prefix extends without a move
      have htake1 : cur.take (i + 1) = cur.take i ++ [t] := by
        rw [List.take_succ]
        rw [List.get?_eq_getElem?] at hget
        rw [← hieq] at hget
        rw [hget]
        rfl
      have hpre' : ∀ u ∈ rest, u ∉ cur.take (i + 1) := by
        intro u hu hmemtake
        rw [htake1] at hmemtake
        rcases List.mem_append.mp hmemtake with h1 | h1
        · exact hpre u (List.mem_cons_of_mem t hu) h1
        · rw [List.mem_singleton] at h1
          exact hts (h1 ▸ hu)
      obtain ⟨final, nm, heq, hlen, htake, hmv⟩ :=
        ih (i + 1) cur moves hndr (fun u hu => hmem u (List.mem_cons_of_mem t hu)) hpre'
      refine ⟨final, nm, ?_, ?_, ?_, hmv⟩
      · simp only [reorderLoop, hj]
        rw [if_pos hieq]
        exact heq
      · simp only [List.length_cons]
        omega
      · have harith : i + (t :: rest).length = (i + 1) + rest.length := by
          simp only [List.length_cons]
          omega
        rw [harith, htake, htake1, List.append_assoc, List.singleton_append]
    · -- track out of position: one move is issued and fixes position i
      have hilt : i < j := lt_of_le_of_ne hij hieq
      have hx : cur.getD j t = t := by
        rw [List.getD_eq_getElem?_getD, ← List.get?_eq_getElem?, hget]
        rfl
      have hpoplen : (pyPop cur j).length = cur.length - 1 := pyPop_length hjlen
      have hipop : i ≤ (pyPop cur j).length := by omega
      have htake1 : (pyInsert (pyPop cur j) i t).take (i + 1) = cur.take i ++ [t] := by
        rw [pyInsert_take hipop, pyPop_take hij (le_of_lt hjlen)]
      have hperm : (pyInsert (pyPop cur j) i t).Perm cur :=
        (pyInsert_perm _ _ _).trans (perm_cons_pyPop hget).symm
      have hmem' : ∀ u ∈ rest, u ∈ pyInsert (pyPop cur j) i t := by
        intro u hu
        exact hperm.mem_iff.mpr (hmem u (List.mem_cons_of_mem t hu))
      have hpre' : ∀ u ∈ rest, u ∉ (pyInsert (pyPop cur j) i t).take (i + 1) := by
        intro u hu hmemtake
        rw [htake1] at hmemtake
        rcases List.mem_append.mp hmemtake with h1 | h1
        · exact hpre u (List.mem_cons_of_mem t hu) h1
        · rw [List.mem_singleton] at h1
          exact hts (h1 ▸ hu)
      obtain ⟨final, nm, heq, hlen, htake, hmv⟩ :=
        ih (i + 1) (pyInsert (pyPop cur j) i t) (moves ++ [(j, i)]) hndr hmem' hpre'
      refine ⟨final, (j, i) :: nm, ?_, ?_, ?_, ?_⟩
      · simp only [reorderLoop, hj]
        rw [if_neg hieq]
        simp only [hx]
        rw [heq, List.append_assoc, List.singleton_append]
      · simp only [List.length_cons]
        omega
      · have harith : i + (t :: rest).length = (i + 1) + rest.length := by
          simp only [List.length_cons]
          omega
        rw [harith, htake, htake1, List.append_assoc, List.singleton_append]
      · intro p hp
        rcases List.mem_cons.mp hp with h1 | h1
        · rw [h1]
          exact hilt
        · exact hmv p h1

lemma reorderLoop_isSome : ∀ (tracks : List String) (i : Nat) (cur : List String)
    (moves : List (Nat × Nat)), (∀ t ∈ tracks, t ∈ cur) →
    ∃ out, reorderLoop tracks i cur moves = some out := by
  intro tracks
  induction tracks with
  | nil =>
    intro i cur moves _
    exact ⟨(cur, moves), rfl⟩
  | cons t rest ih =>
    intro i cur moves hmem
    obtain ⟨j, hj, hget⟩ := listIndex_mem (hmem t (List.mem_cons_self t rest))
    by_cases hieq : i = j
    · obtain ⟨out, hout⟩ :=
        ih (i + 1) cur moves (fun u hu => hmem u (List.mem_cons_of_mem t hu))
      refine ⟨out, ?_⟩
      simp only [reorderLoop, hj]
      rw [if_pos hieq]
      exact hout
    · have hx : cur.getD j t = t := by
        rw [List.getD_eq_getElem?_getD, ← List.get?_eq_getElem?, hget]
        rfl
      have hperm : (pyInsert (pyPop cur j) i t).Perm cur :=
        (pyInsert_perm _ _ _).trans (perm_cons_pyPop hget).symm
      obtain ⟨out, hout⟩ := ih (i + 1) (pyInsert (pyPop cur j) i t) (moves ++ [(j, i)])
        (fun u hu => hperm.mem_iff.mpr (hmem u (List.mem_cons_of_mem t hu)))
      refine ⟨out, ?_⟩
      simp only [reorderLoop, hj]
      rw [if_neg hieq]
      simp only [hx]
      exact hout

lemma reorderLoop_eq_none : ∀ (tracks : List String) (i : Nat) (cur : List String)
    (moves : List (Nat × Nat)), (∃ t ∈ tracks, t ∉ cur) →
    reorderLoop tracks i cur moves = none := by
  intro tracks
  induction tracks with
  | nil =>
    intro i cur moves h
    simp at h
  | cons t rest ih =>
    intro i cur moves h
    by_cases htc : t ∈ cur
    · obtain ⟨u, hu, huc⟩ := h
      have hur : u ∈ rest := by
        rcases List.mem_cons.mp hu with h1 | h1
        · exact absurd (h1 ▸ htc) huc
        · exact h1
      obtain ⟨j, hj, hget⟩ := listIndex_mem htc
      by_cases hieq : i = j
      · simp only [reorderLoop, hj]
        rw [if_pos hieq]
        exact ih _ _ _ ⟨u, hur, huc⟩
      · have hx : cur.getD j t = t := by
          rw [List.getD_eq_getElem?_getD, ← List.get?_eq_getElem?, hget]
          rfl
        have hperm : (pyInsert (pyPop cur j) i t).Perm cur :=
          (pyInsert_perm _ _ _).trans (perm_cons_pyPop hget).symm
        simp only [reorderLoop, hj]
        rw [if_neg hieq]
        simp only [hx]
        exact ih _ _ _ ⟨u, hur, fun hm => huc (hperm.mem_iff.mp hm)⟩
    · simp only [reorderLoop, listIndex_eq_none_of_not_mem htc]

/-! ### Structural lemmas about `sync` -/

lemma sync_ok_final {target cur : List String} {out : SyncOutcome}
    (h : sync target cur = .ok out) : out.final = target := by
  rw [sync] at h
  by_cases h0 : target = cur
  · rw [if_pos h0] at h
    cases h
    exact h0.symm
  · rw [if_neg h0] at h
    cases hp : syncPhases target cur with
    | none =>
      rw [hp] at h
      cases h
    | some p =>
      rw [hp] at h
      obtain ⟨calls, cur4⟩ := p
      by_cases h1 : target = cur4
      · simp only [if_pos h1] at h
        cases h
        exact h1.symm
      · simp only [if_neg h1] at h
        cases h

lemma additionPhase_mem (target cur : List String) :
    ∀ t ∈ target, t ∈ (additionPhase target cur).2 := by
  intro t ht
  rw [additionPhase]
  by_cases h : target.filter (fun u => decide (u ∉ cur)) = []
  · simp only [h, if_pos rfl]
    have := List.filter_eq_nil_iff.mp h t ht
    simpa using this
  · simp only [if_neg h, applyCalls_addCalls]
    by_cases hc : t ∈ cur
    · exact List.mem_append.mpr (Or.inr hc)
    · exact List.mem_append.mpr (Or.inl (List.mem_filter.mpr ⟨ht, by simpa using hc⟩))

lemma reorderPhase_isSome (target cur : List String) (h : ∀ t ∈ target, t ∈ cur) :
    ∃ p, reorderPhase target cur = some p := by
  rw [reorderPhase]
  by_cases heq : target = cur
  · exact ⟨([], cur), by rw [if_pos heq]⟩
  · rw [if_neg heq]
    obtain ⟨⟨mirror, moves⟩, hout⟩ := reorderLoop_isSome target 0 cur [] h
    rw [reorder_playlist, hout]
    exact ⟨_, rfl⟩

lemma syncPhases_isSome (target cur : List String) :
    ∃ p, syncPhases target cur = some p := by
  rw [syncPhases]
  obtain ⟨p4, hp4⟩ := reorderPhase_isSome target
    (additionPhase target (extraneousPhase target (dedupPhase cur).2).2).2
    (additionPhase_mem target _)
  rw [hp4]
  exact ⟨_, rfl⟩

lemma sync_ne_valueError (target cur : List String) :
    sync target cur ≠ .error .valueError := by
  rw [sync]
  by_cases h0 : target = cur
  · rw [if_pos h0]
    intro h
    cases h
  · rw [if_neg h0]
    obtain ⟨⟨calls, cur4⟩, hp⟩ := syncPhases_isSome target cur
    rw [hp]
    by_cases h1 : target = cur4
    · simp only [if_pos h1]
      intro h
      cases h
    · simp only [if_neg h1]
      intro h
      cases h

/-! ### Claim theorems -/

/-- C1: for a duplicate-free target and any current sequence, if `sync`
completes without raising then the final remotely re-fetched playlist
sequence equals the target; and if after all phases the re-fetched sequence
still differs from the target, `sync` raises `PlaylistSyncError`. -/
theorem C1_sync_final_matches_target_or_raises :
    (∀ (target cur : List String) (out : SyncOutcome), target.Nodup →
      sync target cur = .ok out → out.final = target) ∧
    (∀ (target cur : List String) (calls : List MutationCall) (cur4 : List String),
      target ≠ cur → syncPhases target cur = some (calls, cur4) → cur4 ≠ target →
      sync target cur = .error .playlistSyncError) := by
  constructor
  · intro target cur out _ h
    exact sync_ok_final h
  · intro target cur calls cur4 h0 hp h4
    rw [sync, if_neg h0]
    simp only [hp]
    rw [if_neg (fun hh : target = cur4 => h4 hh.symm)]

unseal chunks50 in
/-- Witness for C1 at concrete inputs: a successful run ends exactly at the
target, and a run whose phases end off-target raises `PlaylistSyncError`. -/
theorem C1_witness :
    (SyncOutcome.mk [MutationCall.removeAllOcc ["b"], MutationCall.addAtPos ["a"]] ["a"]).final
        = ["a"] ∧
    sync ["a", "a"] ["a"] = .error .playlistSyncError :=
  ⟨C1_sync_final_matches_target_or_raises.1 ["a"] ["b"]
      ⟨[MutationCall.removeAllOcc ["b"], MutationCall.addAtPos ["a"]], ["a"]⟩
      (by decide) (by rfl),
   C1_sync_final_matches_target_or_raises.2 ["a", "a"] ["a"]
      [MutationCall.moveRange 0 1] ["a"] (by decide) (by rfl) (by decide)⟩

/-- C2: when the current playlist already equals the target, `sync` issues
zero mutation calls and returns success; consequently re-running `sync` on
the final state of a successful run performs zero mutations. -/
theorem C2_noop_short_circuit_and_idempotence :
    (∀ target cur : List String, target = cur → sync target cur = .ok ⟨[], cur⟩) ∧
    (∀ (target cur : List String) (out : SyncOutcome), sync target cur = .ok out →
      sync target out.final = .ok ⟨[], out.final⟩) := by
  constructor
  · intro target cur h
    rw [sync, if_pos h]
  · intro target cur out h
    have hf : out.final = target := sync_ok_final h
    rw [sync, if_pos hf.symm]

unseal chunks50 in
/-- Witness for C2 at concrete inputs: the no-op short circuit, and the
zero-mutation rerun after the successful run `sync ["a"] ["b"]`. -/
theorem C2_witness :
    sync ["a"] ["a"] = .ok ⟨[], ["a"]⟩ ∧
    sync ["a"]
        (SyncOutcome.mk [MutationCall.removeAllOcc ["b"], MutationCall.addAtPos ["a"]] ["a"]).final
      = .ok ⟨[], ["a"]⟩ :=
  ⟨C2_noop_short_circuit_and_idempotence.1 ["a"] ["a"] rfl,
   C2_noop_short_circuit_and_idempotence.2 ["a"] ["b"]
      ⟨[MutationCall.removeAllOcc ["b"], MutationCall.addAtPos ["a"]], ["a"]⟩ (by rfl)⟩

/-- C3: for a duplicate-free target whose every id occurs in the current
playlist, the reorder pass completes, issues a `moveRange(start=j,
insertBefore=i)` only for positions with `j ≠ i`, issues at most
`target.length` moves, and leaves the first `target.length` elements of the
local mirror equal to the target. -/
theorem C3_reorder_pass_bounded_convergence (target cur : List String)
    (hnd : target.Nodup) (hmem : ∀ t ∈ target, t ∈ cur) :
    ∃ (final : List String) (moves : List (Nat × Nat)),
      reorder_playlist target cur = some (final, moves) ∧
      moves.length ≤ target.length ∧
      final.take target.length = target ∧
      (∀ p ∈ moves, p.1 ≠ p.2) := by
  obtain ⟨final, nm, heq, hlen, htake, hmv⟩ :=
    reorderLoop_spec target 0 cur [] hnd hmem (by simp)
  refine ⟨final, nm, ?_, hlen, ?_, ?_⟩
  · rw [reorder_playlist, heq]
    simp
  · simpa using htake
  · intro p hp
    exact ne_of_gt (hmv p hp)

/-- Witness for C3 at a concrete permutation input. -/
theorem C3_witness :
    (["b", "a"] : List String).Nodup ∧
    (∀ t ∈ (["b", "a"] : List String), t ∈ (["a", "b"] : List String)) ∧
    (∃ (final : List String) (moves : List (Nat × Nat)),
      reorder_playlist ["b", "a"] ["a", "b"] = some (final, moves) ∧
      moves.length ≤ (["b", "a"] : List String).length ∧
      final.take (["b", "a"] : List String).length = ["b", "a"] ∧
      (∀ p ∈ moves, p.1 ≠ p.2)) :=
  ⟨by decide, by decide,
   C3_reorder_pass_bounded_convergence ["b", "a"] ["a", "b"] (by decide) (by decide)⟩

unseal chunks50 in
/-- C4: end-to-end scenario B: with current `["x","x","y"]` and target
`["x","y"]`, the duplicate phase removes all occurrences of `"x"` leaving
`["y"]`, the addition phase re-adds `"x"` at the head giving `["x","y"]`,
no reorder call is issued, and `sync` succeeds with the final sequence equal
to the target. -/
theorem C4_end_to_end_scenario_B :
    dedupPhase ["x", "x", "y"] = ([MutationCall.removeAllOcc ["x"]], ["y"]) ∧
    additionPhase ["x", "y"] ["y"] = ([MutationCall.addAtPos ["x"]], ["x", "y"]) ∧
    sync ["x", "y"] ["x", "x", "y"] =
      .ok ⟨[MutationCall.removeAllOcc ["x"], MutationCall.addAtPos ["x"]], ["x", "y"]⟩ :=
  ⟨rfl, rfl, rfl⟩

/-- C5 counterexample: for current `["x","x","x"]` the duplicate scan submits
`["x","x"]` — the duplicated id `"x"` appears twice in the submitted
collection, not exactly once as the claim states. -/
theorem C5_counterexample :
    duplicateTracks ["x", "x", "x"] = ["x", "x"] ∧
    (duplicateTracks ["x", "x", "x"]).count "x" ≠ 1 := by
  constructor <;> decide

/-- C5 (amended): the ids submitted in the duplicate phase are, as a set,
exactly the ids occurring at least twice in the current sequence, each
appearing `count - 1` times (once per occurrence after the first, not
exactly once); and the playlist sequence used after the phase is the remote
state re-fetched after the issued calls, not a locally inferred one. -/
theorem C5_duplicate_phase_amended (cur : List String) (t : String) :
    (t ∈ duplicateTracks cur ↔ 2 ≤ cur.count t) ∧
    (duplicateTracks cur).count t = cur.count t - 1 ∧
    (dedupPhase cur).2 = applyCalls cur (dedupPhase cur).1 := by
  refine ⟨mem_duplicateTracks cur t, duplicateTracks_count cur t, ?_⟩
  rw [dedupPhase]
  by_cases h : duplicateTracks cur = []
  · simp [h, applyCalls]
  · simp [h]

/-- Witness for C5 at a concrete input with one duplicated id. -/
theorem C5_witness :
    ("x" ∈ duplicateTracks ["x", "x", "y"] ↔ 2 ≤ (["x", "x", "y"] : List String).count "x") ∧
    (duplicateTracks ["x", "x", "y"]).count "x" = (["x", "x", "y"] : List String).count "x" - 1 ∧
    (dedupPhase ["x", "x", "y"]).2 = applyCalls ["x", "x", "y"] (dedupPhase ["x", "x", "y"]).1 :=
  C5_duplicate_phase_amended ["x", "x", "y"] "x"

unseal savedFetchLoop in
/-- C6 counterexample: with a window size that is not a multiple of the page
size (60), index 0 and a 100-track library, `get_recently_added_tracks`
returns 100 ids, not exactly `windowSize = 60` as the claim states. -/
theorem C6_counterexample :
    (get_recently_added_tracks (List.replicate 100 "a") 0 60).length = 100 ∧
    (100 : Nat) ≠ 60 := by
  constructor <;> decide

/-- C6 (amended): `get_recently_added_tracks` reads fixed 50-sized pages from
offset `index * windowSize` and stops at page granularity; when the page
size divides `windowSize` and the library holds at least
`index * windowSize + windowSize` tracks, it returns exactly the
`windowSize`-length window in feed order (for `windowSize` not divisible by
50 it can overshoot, returning whole pages). -/
theorem C6_window_fetch_amended (library : List String) (index windowSize : Nat)
    (hdvd : GET_LIMIT ∣ windowSize)
    (hlen : index * windowSize + windowSize ≤ library.length) :
    get_recently_added_tracks library index windowSize =
      (library.drop (index * windowSize)).take windowSize ∧
    (get_recently_added_tracks library index windowSize).length = windowSize := by
  obtain ⟨k, hk⟩ := hdvd
  subst hk
  have h := savedFetchLoop_full library k (index * (GET_LIMIT * k)) 0 [] (by omega)
  have h1 : get_recently_added_tracks library index (GET_LIMIT * k) =
      (library.drop (index * (GET_LIMIT * k))).take (GET_LIMIT * k) := by
    rw [get_recently_added_tracks]
    simpa using h
  refine ⟨h1, ?_⟩
  rw [h1]
  simp only [List.length_take, List.length_drop]
  omega

/-- Witness for C6 (amended) at index 1, window 50, a 100-track library. -/
theorem C6_witness :
    GET_LIMIT ∣ 50 ∧ 1 * 50 + 50 ≤ (List.replicate 100 "a").length ∧
    (get_recently_added_tracks (List.replicate 100 "a") 1 50 =
        ((List.replicate 100 "a").drop (1 * 50)).take 50 ∧
      (get_recently_added_tracks (List.replicate 100 "a") 1 50).length = 50) :=
  ⟨⟨1, rfl⟩, by decide,
   C6_window_fetch_amended (List.replicate 100 "a") 1 50 ⟨1, rfl⟩ (by decide)⟩

/-- C7: the addition phase splits the missing tracks into consecutive batches
of at most 50 ids, submits them in reverse batch order each at position 0,
and the resulting playlist is the missing list in original order followed by
the prior contents. -/
theorem C7_addition_batches (tracksToAdd prior : List String) :
    applyCalls prior (addCalls tracksToAdd) = tracksToAdd ++ prior ∧
    (∀ b ∈ chunks50 tracksToAdd, b.length ≤ GET_LIMIT) ∧
    (chunks50 tracksToAdd).flatten = tracksToAdd ∧
    addCalls tracksToAdd = ((chunks50 tracksToAdd).reverse).map MutationCall.addAtPos :=
  ⟨applyCalls_addCalls prior tracksToAdd, fun _ hb => chunks50_sizes hb,
   chunks50_flatten tracksToAdd, rfl⟩

unseal chunks50 in
/-- Witness for C7 at a concrete input. -/
theorem C7_witness :
    applyCalls ["z"] (addCalls ["a", "b"]) = ["a", "b", "z"] ∧
    (["a", "b"] : List String).length ≤ GET_LIMIT :=
  ⟨(C7_addition_batches ["a", "b"] ["z"]).1,
   (C7_addition_batches ["a", "b"] ["z"]).2.1 ["a", "b"] (by decide)⟩

/-- C8: when the store already holds a persisted (name, id) list,
`get_playlist_ids` raises whenever the persisted name sequence differs from
the configured one, and returns the persisted pairs in order only when the
name sequences are exactly equal. -/
theorem C8_playlist_ids_validation (names : List String)
    (stored : List (String × String)) (createId : String → String) :
    (names ≠ stored.map Prod.fst →
      ∃ e, get_playlist_ids names (some stored) createId = .error e) ∧
    (∀ ps, get_playlist_ids names (some stored) createId = .ok ps →
      ps = stored ∧ names = stored.map Prod.fst) := by
  constructor
  · intro hne
    simp only [get_playlist_ids]
    by_cases h0 : stored = []
    · exact ⟨.playlistsDataError, by rw [if_pos h0]⟩
    · refine ⟨.nameMismatch, ?_⟩
      rw [if_neg h0, if_pos hne]
  · intro ps hps
    simp only [get_playlist_ids] at hps
    by_cases h0 : stored = []
    · rw [if_pos h0] at hps
      cases hps
    · rw [if_neg h0] at hps
      by_cases h1 : names ≠ stored.map Prod.fst
      · rw [if_pos h1] at hps
        cases hps
      · rw [if_neg h1] at hps
        cases hps
        push_neg at h1
        exact ⟨rfl, h1⟩

/-- Witness for C8: a mismatching stored list fails, a matching one is
returned in order. -/
theorem C8_witness :
    (∃ e, get_playlist_ids ["a"] (some [("b", "1")]) id = .error e) ∧
    ([("a", "1")] = [("a", "1")] ∧ ["a"] = [("a", "1")].map Prod.fst) :=
  ⟨(C8_playlist_ids_validation ["a"] [("b", "1")] id).1 (by decide),
   (C8_playlist_ids_validation ["a"] [("a", "1")] id).2 [("a", "1")] (by rfl)⟩

/-- C9: a library shorter than `index * windowSize` yields the empty target
sequence for that segment. -/
theorem C9_short_library_empty (library : List String)
    (playlistIndex playlistLength : Nat)
    (h : library.length < playlistIndex * playlistLength) :
    get_recently_added_tracks library playlistIndex playlistLength = [] := by
  rw [get_recently_added_tracks]
  exact savedFetchLoop_empty_page library _ _ (le_of_lt h)

/-- Witness for C9 at a one-track library with index 2, window 1. -/
theorem C9_witness :
    (["a"] : List String).length < 2 * 1 ∧
    get_recently_added_tracks ["a"] 2 1 = [] :=
  ⟨by decide, C9_short_library_empty ["a"] 2 1 (by decide)⟩

unseal chunks50 in
/-- C10 counterexample: at the claim's own example input (target `["a"]`,
current `[]`), `reorder_playlist` alone does fail, but `sync` succeeds — the
addition phase inserts `"a"` first, so `sync` never reaches the unguarded
lookup failure. -/
theorem C10_counterexample :
    reorder_playlist ["a"] [] = none ∧
    sync ["a"] [] = .ok ⟨[MutationCall.addAtPos ["a"]], ["a"]⟩ :=
  ⟨rfl, rfl⟩

/-- C10 (amended): `reorder_playlist` completes exactly when every target id
occurs in the current sequence — the unguarded `list.index` lookup fails
(ValueError) whenever some target id is absent — but `sync` itself never
raises this error, because the addition phase guarantees every target id is
present in the sequence it passes to `reorder_playlist`. -/
theorem C10_reorder_precondition_amended (target cur : List String) :
    (reorder_playlist target cur = none ↔ ¬ ∀ t ∈ target, t ∈ cur) ∧
    sync target cur ≠ .error .valueError := by
  constructor
  · constructor
    · intro hnone hall
      obtain ⟨out, hout⟩ := reorderLoop_isSome target 0 cur [] hall
      rw [reorder_playlist, hout] at hnone
      cases hnone
    · intro hnall
      push_neg at hnall
      exact reorderLoop_eq_none target 0 cur [] hnall
  · exact sync_ne_valueError target cur

/-- Witness for C10 (amended) at concrete inputs. -/
theorem C10_witness :
    reorder_playlist ["b"] [] = none ∧
    sync ["b"] ["b"] ≠ .error .valueError :=
  ⟨(C10_reorder_precondition_amended ["b"] []).1.mpr (by decide),
   (C10_reorder_precondition_amended ["b"] ["b"]).2⟩

end SpotifySync
